import Mathlib

/-!
Shallow embedding of `src/models/recurrent/stablessm.py` (StableSSM, a diagonal
linear state-space sequence layer) and proofs about it.

Modelling conventions:
* Python floats are modelled by `ℝ`, complex tensors by `ℂ`.
* A tensor of shape (H, N) is a function `Fin H → Fin N → ℝ` (or `ℂ`); a
  length-L 1-D signal entering the FFT convolution is modelled by its entry
  function `ℕ → ℂ` (only indices `< L` are ever read, matching the tensor).
* `torch.view_as_real` / `torch.view_as_complex` round-trip on `C` is the
  identity at the value level, so `C` is stored directly as a complex matrix.
* A Python function that `raise`s is modelled by an `Except`/outcome type; the
  distinction between *raising* an exception and *returning* an exception
  object as an ordinary value (which `STABLESSMKernel.forward` does) is kept
  explicit in `ForwardOutcome`.
* `torch.fft.rfft(x, n=2L)` / `irfft` on real inputs agree with the full
  complex DFT of the zero-padded signal (the Hermitian half-spectrum
  determines the full spectrum); they are modelled by the full DFT `dft` and
  inverse `idft` below, applied to the zero-padded signals.
-/

namespace StableSSM

/-- Python exception values relevant to this module. -/
inductive PyError where
  | valueError (msg : String)
  | typeError (msg : String)
  deriving DecidableEq, Repr

/-- Result of calling `STABLESSMKernel.forward`.  The source's unknown-
parameterization branch executes `return ValueError(...)` (not `raise`), so the
outcome distinguishes a returned error *object* from a raised exception. -/
inductive ForwardOutcome (α : Type) where
  | value (a : α)
  | errorObjectReturned (e : PyError)
  | raised (e : PyError)
  deriving DecidableEq

/-- The four parameterization names recognized by the `if`/`elif` chain in
`STABLESSMKernel.__init__` and `STABLESSMKernel.forward`. -/
def knownParameterization (s : String) : Bool :=
  s = ("exp") || s = "softplus" || s = "best" || s = "direct"

/-- Model of `DropoutNd.__init__`: raises `ValueError` when `p < 0 or p >= 1`. -/
noncomputable def DropoutNd.initCheck (p : ℝ) : Except PyError Unit :=
  if p < 0 ∨ 1 ≤ p then
    .error (.valueError ("dropout probability has to be in [0, 1)"))
  else .ok ()

/-- Model of `STABLESSMKernel.__init__` as a validation outcome.  The body performs no
check on `N` (it only ever uses `N // 2`); on an unrecognized parameterization
it executes `return ValueError(...)`, upon which Python itself raises
`TypeError` because `__init__` returned a non-`None` value. -/
def STABLESSMKernel.initCheck (parameterization : String) (N : ℕ) : Except PyError Unit :=
  if knownParameterization parameterization then .ok ()
  else .error (.typeError ("__init__() should return None, not ValueError"))

/-- Number of complex modes materialized by `STABLESSMKernel.__init__`:
`N // 2` (Python floor division), with no parity check on `N`. -/
def STABLESSMKernel.numModes (N : ℕ) : ℕ := N / 2

/-- The dropout sub-module chosen by `STABLESSM.__init__`:
`DropoutNd(dropout) if dropout > 0.0 else nn.Identity()`. -/
inductive DropoutModule where
  | identity
  | dropoutNd (p : ℝ)

/-- Model of `STABLESSM.__init__` as a validation outcome: the kernel is constructed
first, then the dropout module (`DropoutNd(dropout) if dropout > 0.0 else
Identity`); `DropoutNd.__init__` validates its probability.  `d_model` and
`d_state` are accepted unconditionally (no validation in the source). -/
noncomputable def STABLESSM.initCheck (d_model d_state : ℕ) (dropout : ℝ)
    (parameterization : String) : Except PyError DropoutModule :=
  (STABLESSMKernel.initCheck parameterization d_state).bind fun _ =>
    if dropout > 0 then
      (DropoutNd.initCheck dropout).map fun _ => DropoutModule.dropoutNd dropout
    else .ok .identity

/-! ## The four decay parameterizations (`STABLESSMKernel.forward`, A branch) -/

/-- Parameterization `"exp"`: `A = -torch.exp(log_A_real) + 1j * A_imag`. -/
noncomputable def A_exp (raw imag : ℝ) : ℂ :=
  -(Real.exp raw : ℂ) + Complex.I * (imag : ℂ)

/-- Parameterization `"softplus"`: `A = -torch.log(1 + torch.exp(log_A_real)) + 1j * A_imag`. -/
noncomputable def A_softplus (raw imag : ℝ) : ℂ :=
  -(Real.log (1 + Real.exp raw) : ℂ) + Complex.I * (imag : ℂ)

/-- Parameterization `"best"`: `A = -1 / (log_A_real**2 + 0.1) + 1j * A_imag`. -/
noncomputable def A_best (raw imag : ℝ) : ℂ :=
  -(1 / ((raw : ℂ) ^ 2 + (1 / 10 : ℝ))) + Complex.I * (imag : ℂ)

/-- Parameterization `"direct"`: `A = log_A_real + 1j * A_imag`. -/
noncomputable def A_direct (raw imag : ℝ) : ℂ :=
  (raw : ℂ) + Complex.I * (imag : ℂ)

/-- The effective complex decay selected by the `if`/`elif` chain of
`STABLESSMKernel.forward`, for a recognized parameterization (the final
`else` arm of this total function is only reached under the `"direct"`
guard of `STABLESSMKernel.forward`). -/
noncomputable def Aof (param : String) (raw imag : ℝ) : ℂ :=
  if param = ("exp") then A_exp raw imag
  else if param = "softplus" then A_softplus raw imag
  else if param = "best" then A_best raw imag
  else A_direct raw imag

/-! ## Kernel generation (`STABLESSMKernel`) -/

/-- The tensors held by a `STABLESSMKernel` instance with `H = d_model`
channels and `N/2` complex modes (index type `Fin M` with `M = N // 2`):
`log_dt : (H)`, `C : (H, M)` complex, `log_A_real : (H, M)`,
`A_imag : (H, M)`. -/
structure KernelParams (H M : ℕ) where
  log_dt : Fin H → ℝ
  C : Fin H → Fin M → ℂ
  log_A_real : Fin H → Fin M → ℝ
  A_imag : Fin H → Fin M → ℝ

/-- Initial value of `A_imag[h, n] = math.pi * n` (`repeat` over `h` makes the
rows equal, so the entry depends only on `n`). -/
noncomputable def A_imagInit (n : ℕ) : ℝ := Real.pi * n

/-- The kernel tensor computed by the body of `STABLESSMKernel.forward` once
the decay `A` has been materialized by the parameterization branch:
`dt = exp(log_dt)`, `dtA = A*dt`, `K₀[h,n,l] = dtA[h,n]*l`,
`C' = C*(exp(dtA)-1)/A`, `K = 2*einsum("hn,hnl->hl", C', exp(K₀)).real`. -/
noncomputable def STABLESSMKernel.kernelValue {H M : ℕ} (param : String)
    (p : KernelParams H M) (L : ℕ) : Fin H → Fin L → ℝ := fun h l =>
  let dt : ℝ := Real.exp (p.log_dt h)
  let A : Fin M → ℂ := fun n => Aof param (p.log_A_real h n) (p.A_imag h n)
  let dtA : Fin M → ℂ := fun n => A n * (dt : ℂ)
  let C : Fin M → ℂ := fun n => p.C h n * (Complex.exp (dtA n) - 1) / A n
  2 * (∑ n, C n * Complex.exp (dtA n * ((l : ℕ) : ℂ))).re

/-- Model of `STABLESSMKernel.forward(L)`: dispatches on the stored parameterization
string; on an unrecognized name the source executes
`return ValueError(f"Unknown parameterization {...}")`, i.e. the error object
becomes the function's return value — nothing is raised. -/
noncomputable def STABLESSMKernel.forward {H M : ℕ} (param : String)
    (p : KernelParams H M) (L : ℕ) : ForwardOutcome (Fin H → Fin L → ℝ) :=
  if knownParameterization param then .value (STABLESSMKernel.kernelValue param p L)
  else .errorObjectReturned (.valueError ("Unknown parameterization " ++ param))

/-- The closed form claimed by the spec for the kernel entries:
`K[h,l] = 2·Re(Σ_n C'[h,n]·exp(dtA[h,n]·l))` with `dt[h] = exp(log_dt[h])`,
`dtA[h,n] = A[h,n]·dt[h]` and `C'[h,n] = C[h,n]·(exp(dtA[h,n]) − 1)/A[h,n]`. -/
noncomputable def specKernelClosedForm {H M : ℕ} (A : Fin H → Fin M → ℂ)
    (C : Fin H → Fin M → ℂ) (log_dt : Fin H → ℝ) (h : Fin H) (l : ℕ) : ℝ :=
  2 * (∑ n, (C h n * (Complex.exp (A h n * (Real.exp (log_dt h) : ℂ)) - 1) / A h n) *
        Complex.exp ((A h n * (Real.exp (log_dt h) : ℂ)) * (l : ℂ))).re

/-! ## Parameter registration (`STABLESSMKernel.register`) -/

/-- What `register(name, tensor, lr)` records: a fixed buffer when
`lr == 0.0`, otherwise a trainable `nn.Parameter` tagged with
`{weight_decay: 0}` plus `{lr: lr}` when an explicit rate is given.  The
default of the `lr` argument is `None`, modelled by `none`. -/
inductive Registered (α : Type) where
  | buffer (value : α)
  | parameter (value : α) (lr : Option ℝ)

/-- Holds exactly for tensors registered as fixed (non-trainable) buffers. -/
def Registered.isBuffer {α : Type} : Registered α → Bool
  | .buffer _ => true
  | .parameter _ _ => false

/-- The stored tensor value, in either case. -/
def Registered.value {α : Type} : Registered α → α
  | .buffer v => v
  | .parameter v _ => v

/-- Model of `STABLESSMKernel.register`: `if lr == 0.0: register_buffer(...) else:
register_parameter(nn.Parameter(...))` with optimizer tags. -/
noncomputable def STABLESSMKernel.register {α : Type} (lr : Option ℝ) (v : α) :
    Registered α :=
  if lr = some 0 then .buffer v else .parameter v lr

/-! ## Discrete Fourier transform (model of `torch.fft.rfft`/`irfft`) -/

/-- The principal `n`-th root of unity `exp(2πi/n)`. -/
noncomputable def zeta (n : ℕ) : ℂ := Complex.exp (2 * Real.pi * Complex.I / n)

/-- Forward DFT with the torch/numpy sign convention:
`dft x k = Σ_j x j · exp(-2πi·jk/n)`. -/
noncomputable def dft (n : ℕ) (x : Fin n → ℂ) (k : Fin n) : ℂ :=
  ∑ j, x j * zeta n ^ (-((j : ℤ) * (k : ℤ)))

/-- Inverse DFT: `idft X l = (1/n)·Σ_k X k · exp(2πi·lk/n)`. -/
noncomputable def idft (n : ℕ) (X : Fin n → ℂ) (l : Fin n) : ℂ :=
  (n : ℂ)⁻¹ * ∑ k, X k * zeta n ^ ((l : ℤ) * (k : ℤ))

/-- Zero-padding of a length-`L` signal to length `2L`, as effected by the
`n = 2*L` argument of `torch.fft.rfft`. -/
def padTo2L (L : ℕ) (x : ℕ → ℂ) (i : Fin (2 * L)) : ℂ :=
  if (i : ℕ) < L then x i else 0

/-- The frequency-domain convolution pipeline of `STABLESSM.forward`:
`k_f = rfft(k, 2L)`, `u_f = rfft(u, 2L)`, `y = irfft(u_f * k_f, 2L)[..., :L]`.
For real inputs `rfft`/`irfft` agree with the full complex DFT of the
zero-padded signal, which is how they are modelled here; `l` ranges over the
first `L` retained output samples. -/
noncomputable def freqConv (L : ℕ) (u k : ℕ → ℂ) (l : Fin L) : ℂ :=
  idft (2 * L)
    (fun f => dft (2 * L) (padTo2L L u) f * dft (2 * L) (padTo2L L k) f)
    ⟨(l : ℕ), lt_of_lt_of_le l.2 (by omega)⟩

/-- The convolution stage of `STABLESSM.forward` on a real input tensor `U` of
shape (B, H, L) and real kernel `K` of shape (H, L); the elementwise product
`u_f * k_f` broadcasts the kernel over the batch axis. -/
noncomputable def STABLESSM.freqConvOutput (B H L : ℕ) (U : Fin B → Fin H → ℕ → ℝ)
    (K : Fin H → ℕ → ℝ) (b : Fin B) (h : Fin H) (l : Fin L) : ℝ :=
  (freqConv L (fun j => (U b h j : ℂ)) (fun j => (K h j : ℂ)) l).re

/-! ## The sequence block (`STABLESSM.forward`) -/

/-- Model of `STABLESSM.forward` with `transposed = True`, on an input of shape
(B, H, L): generate the kernel for the input's length, convolve in the
frequency domain, add the skip term `u * D`, apply activation, dropout and
the gated output projection, and return the pair `(y, None)` — the source
returns a dummy `None` state to satisfy the repo interface.  The activation,
dropout and gated `Conv1d`+`GLU` projection are external primitives
(spec §6), taken as function parameters; the unrecognized-parameterization
path of the kernel is modelled separately by `STABLESSMKernel.forward`. -/
noncomputable def STABLESSM.forward {B H M L : ℕ} (param : String)
    (p : KernelParams H M) (D : Fin H → ℝ) (activation : ℝ → ℝ)
    (dropoutFn outputLinear :
      (Fin B → Fin H → Fin L → ℝ) → (Fin B → Fin H → Fin L → ℝ))
    (u : Fin B → Fin H → Fin L → ℝ) :
    (Fin B → Fin H → Fin L → ℝ) × Option Unit :=
  let k : Fin H → Fin L → ℝ := STABLESSMKernel.kernelValue param p L
  let y₁ : Fin B → Fin H → Fin L → ℝ :=
    STABLESSM.freqConvOutput B H L
      (fun b h j => if hj : j < L then u b h ⟨j, hj⟩ else 0)
      (fun h j => if hj : j < L then k h ⟨j, hj⟩ else 0)
  let y₂ : Fin B → Fin H → Fin L → ℝ := fun b h l => y₁ b h l + u b h l * D h
  let y₃ := dropoutFn (fun b h l => activation (y₂ b h l))
  (outputLinear y₃, none)

/-! ## The residual stack (`StableSSMModel.forward`) -/

/-- The sub-modules of one layer of `StableSSMModel`: the STABLESSM block
(first component of its output pair), the `LayerNorm` (acting on (B, L, d)
tensors; the loop wraps it in transposes) and the stack-level `Dropout1d`. -/
structure StackLayer (B d L : ℕ) where
  block : (Fin B → Fin d → Fin L → ℝ) → (Fin B → Fin d → Fin L → ℝ)
  norm : (Fin B → Fin L → Fin d → ℝ) → (Fin B → Fin L → Fin d → ℝ)
  dropout : (Fin B → Fin d → Fin L → ℝ) → (Fin B → Fin d → Fin L → ℝ)

/-- Transpose `x.transpose(-1, -2)` from (B, d, L) to (B, L, d). -/
def transposeToBLd {B d L : ℕ} (x : Fin B → Fin d → Fin L → ℝ) :
    Fin B → Fin L → Fin d → ℝ := fun b l c => x b c l

/-- Transpose `x.transpose(-1, -2)` from (B, L, d) to (B, d, L). -/
def transposeToBdL {B d L : ℕ} (x : Fin B → Fin L → Fin d → ℝ) :
    Fin B → Fin d → Fin L → ℝ := fun b c l => x b l c

/-- One iteration of the layer loop of `StableSSMModel.forward`:
`z = x`; pre-norm applies the (transpose-wrapped) norm to `z`; the block and
the stack dropout are applied; the residual `x = z + x` is added; post-norm
applies the norm to the result instead. -/
def stackStep {B d L : ℕ} (prenorm : Bool) (layer : StackLayer B d L)
    (x : Fin B → Fin d → Fin L → ℝ) : Fin B → Fin d → Fin L → ℝ :=
  let z := x
  let z := if prenorm then transposeToBdL (layer.norm (transposeToBLd z)) else z
  let z := layer.block z
  let z := layer.dropout z
  let x' := fun b c l => z b c l + x b c l
  if prenorm then x' else transposeToBdL (layer.norm (transposeToBLd x'))

/-- Output of `StableSSMModel.forward`: the full sequence in (B, L, d) layout,
or the length-averaged (B, d) tensor in pooling mode. -/
inductive StackOutput (B d L : ℕ) where
  | pooled (y : Fin B → Fin d → ℝ)
  | seq (y : Fin B → Fin L → Fin d → ℝ)

/-- Model of `StableSSMModel.forward`: transpose the (B, L, d) input to (B, d, L), run
the layer loop, transpose back, and either return the sequence
(`return_seq`) or mean-pool over the length axis (`x.mean(dim=1)`). -/
noncomputable def StableSSMModel.forward {B d L : ℕ} (prenorm return_seq : Bool)
    (layers : List (StackLayer B d L)) (x : Fin B → Fin L → Fin d → ℝ) :
    StackOutput B d L :=
  let x₁ := transposeToBdL x
  let x₂ := layers.foldl (fun acc layer => stackStep prenorm layer acc) x₁
  let x₃ := transposeToBLd x₂
  if return_seq then .seq x₃
  else .pooled fun b c => (∑ l, x₃ b l c) / L

/-- A concrete 1-channel, 1-mode parameter set (all entries zero), used to
instantiate universally quantified results at a specific input. -/
noncomputable def p₀ : KernelParams 1 1 :=
  ⟨fun _ => 0, fun _ _ => 0, fun _ _ => 0, fun _ _ => 0⟩

/-! ## Helper lemmas -/

/-- Real part of a complex number given as real + I·real. -/
theorem re_ofReal_add_I_mul (x y : ℝ) : ((x : ℂ) + Complex.I * (y : ℂ)).re = x := by
  simp

/-- Real parts of the four parameterizations, computed once and for all. -/
theorem A_exp_re (raw imag : ℝ) : (A_exp raw imag).re = -Real.exp raw := by
  have h : A_exp raw imag = ((-Real.exp raw : ℝ) : ℂ) + Complex.I * (imag : ℂ) := by
    unfold A_exp; push_cast; ring
  rw [h, re_ofReal_add_I_mul]

theorem A_softplus_re (raw imag : ℝ) :
    (A_softplus raw imag).re = -Real.log (1 + Real.exp raw) := by
  have h : A_softplus raw imag =
      ((-Real.log (1 + Real.exp raw) : ℝ) : ℂ) + Complex.I * (imag : ℂ) := by
    unfold A_softplus; push_cast; ring
  rw [h, re_ofReal_add_I_mul]

theorem A_best_re (raw imag : ℝ) :
    (A_best raw imag).re = -(1 / (raw ^ 2 + 1 / 10)) := by
  have h : A_best raw imag =
      ((-(1 / (raw ^ 2 + 1 / 10)) : ℝ) : ℂ) + Complex.I * (imag : ℂ) := by
    unfold A_best; push_cast; ring
  rw [h, re_ofReal_add_I_mul]

theorem A_direct_re (raw imag : ℝ) : (A_direct raw imag).re = raw := by
  have h : A_direct raw imag = ((raw : ℝ) : ℂ) + Complex.I * (imag : ℂ) := rfl
  rw [h, re_ofReal_add_I_mul]

theorem A_exp_re_neg (raw imag : ℝ) : (A_exp raw imag).re < 0 := by
  rw [A_exp_re]; exact neg_neg_of_pos (Real.exp_pos raw)

theorem A_softplus_re_neg (raw imag : ℝ) : (A_softplus raw imag).re < 0 := by
  rw [A_softplus_re]
  exact neg_neg_of_pos (Real.log_pos (by linarith [Real.exp_pos raw]))

theorem A_best_re_neg (raw imag : ℝ) : (A_best raw imag).re < 0 := by
  rw [A_best_re]
  have hpos : (0 : ℝ) < raw ^ 2 + 1 / 10 := by positivity
  exact neg_neg_of_pos (by positivity)

theorem A_best_re_ge (raw imag : ℝ) : (-10 : ℝ) ≤ (A_best raw imag).re := by
  rw [A_best_re]
  have h1 : (1 / 10 : ℝ) ≤ raw ^ 2 + 1 / 10 := by nlinarith [sq_nonneg raw]
  have h2 : 1 / (raw ^ 2 + 1 / 10) ≤ 1 / (1 / 10 : ℝ) :=
    one_div_le_one_div_of_le (by norm_num) h1
  have h3 : (1 / (1 / 10 : ℝ)) = 10 := by norm_num
  linarith [h2, h3.le]

theorem kernelInitCheck_known (param : String) (N : ℕ)
    (h : knownParameterization param = true) :
    STABLESSMKernel.initCheck param N = .ok () := by
  unfold STABLESSMKernel.initCheck
  rw [if_pos h]

theorem initCheck_nonpos_dropout (d_model N : ℕ) (dropout : ℝ)
    (hd : dropout ≤ 0) :
    STABLESSM.initCheck d_model N dropout ("exp") = .ok .identity := by
  unfold STABLESSM.initCheck
  rw [kernelInitCheck_known ("exp") N rfl]
  show (if dropout > 0 then _ else _) = _
  rw [if_neg (not_lt.mpr hd)]

/-! ## Claim theorems -/

/-- C1: on an unrecognized parameterization (here `"foo"`),
`STABLESSMKernel.forward` returns the `ValueError` object as its value — it is
never raised — while `__init__` fails only via Python's `TypeError` for a
non-`None` return from `__init__`, not via the `ValueError` itself.  This
contradicts the spec's requirement that an `InvalidConfiguration` error be
raised/propagated rather than produced as an unchecked return value. -/
theorem C1_unknown_param_error_object_returned (H M L : ℕ) (p : KernelParams H M) :
    STABLESSMKernel.forward ("foo") p L
        = .errorObjectReturned (.valueError ("Unknown parameterization foo"))
      ∧ (∀ e, STABLESSMKernel.forward ("foo") p L ≠ .raised e)
      ∧ STABLESSMKernel.initCheck ("foo") 64
        = .error (.typeError ("__init__() should return None, not ValueError")) := by
  refine ⟨?_, ?_, ?_⟩
  · unfold STABLESSMKernel.forward
    rw [if_neg (by decide : ¬ knownParameterization ("foo") = true)]
    rfl
  · intro e h
    unfold STABLESSMKernel.forward at h
    rw [if_neg (by decide : ¬ knownParameterization ("foo") = true)] at h
    exact ForwardOutcome.noConfusion h
  · unfold STABLESSMKernel.initCheck
    rw [if_neg (by decide : ¬ knownParameterization ("foo") = true)]

/-- C2: for every recognized parameterization, parameter set and length `L`,
`STABLESSMKernel.forward` returns (shape-(H, L), real-valued, by type) the
kernel whose entries are the closed form
`K[h,l] = 2·Re(Σ_n C'[h,n]·exp(dtA[h,n]·l))` with `dt[h] = exp(log_dt[h])`,
`dtA[h,n] = A[h,n]·dt[h]`, `C'[h,n] = C[h,n]·(exp(dtA[h,n]) − 1)/A[h,n]`. -/
theorem C2_kernel_closed_form {H M : ℕ} (param : String) (p : KernelParams H M)
    (L : ℕ) (hp : knownParameterization param = true) :
    STABLESSMKernel.forward param p L
      = .value fun h l =>
          specKernelClosedForm
            (fun h n => Aof param (p.log_A_real h n) (p.A_imag h n))
            p.C p.log_dt h (l : ℕ) := by
  unfold STABLESSMKernel.forward
  rw [if_pos hp]
  rfl

/-- Witness for C2 at `param = ("exp")`, the all-zero parameter set and
`L = 1`. -/
theorem C2_witness :
    STABLESSMKernel.forward ("exp") p₀ 1
      = .value fun h l =>
          specKernelClosedForm
            (fun h n => Aof ("exp") (p₀.log_A_real h n) (p₀.A_imag h n))
            p₀.C p₀.log_dt h (l : ℕ) :=
  C2_kernel_closed_form ("exp") p₀ 1 rfl

/-- C4 (amended): under `exp` and `softplus` the real part of the effective
decay is strictly negative for every raw value; under `best` it lies in the
half-open interval [-10, 0) — the lower bound −10 is attained (at raw = 0),
so the open interval (−10, 0) of the original claim is off by the
boundary point. -/
theorem C4_decay_real_part_ranges (raw imag : ℝ) :
    (A_exp raw imag).re < 0 ∧ (A_softplus raw imag).re < 0
      ∧ (A_best raw imag).re ∈ Set.Ico (-10 : ℝ) 0 :=
  ⟨A_exp_re_neg raw imag, A_softplus_re_neg raw imag,
    A_best_re_ge raw imag, A_best_re_neg raw imag⟩

/-- C4 counterexample to the original claim: at `raw = 0` the `best`
parameterization gives real part exactly −10, which is not in the open
interval (−10, 0). -/
theorem C4_counterexample :
    (A_best 0 0).re = -10 ∧ (A_best 0 0).re ∉ Set.Ioo (-10 : ℝ) 0 := by
  have h : (A_best 0 0).re = -10 := by rw [A_best_re]; norm_num
  exact ⟨h, fun hmem => absurd (h ▸ hmem.1) (lt_irrefl (-10 : ℝ))⟩

/-- C5 (amended): `A_imag[h, n]` is initialized to `π·n`, and
`STABLESSMKernel.register` stores it as a fixed buffer exactly when the
learning rate `0.0` is explicitly passed; with any other `lr` — including the
default `None` — it becomes a trainable `nn.Parameter` (tagged for the
optimizer), i.e. it *is* updated by gradient-based training by default. -/
theorem C5_A_imag_init_and_registration (n : ℕ) (lr : Option ℝ) :
    A_imagInit n = Real.pi * n
      ∧ (STABLESSMKernel.register lr (A_imagInit n)).value = A_imagInit n
      ∧ ((STABLESSMKernel.register lr (A_imagInit n)).isBuffer = true ↔ lr = some 0) := by
  refine ⟨rfl, ?_, ?_⟩ <;> unfold STABLESSMKernel.register <;>
    by_cases hlr : lr = some 0
  · rw [if_pos hlr]; rfl
  · rw [if_neg hlr]; rfl
  · rw [if_pos hlr]; simpa [Registered.isBuffer] using hlr
  · rw [if_neg hlr]; simpa [Registered.isBuffer] using hlr

/-- C5 counterexample to the original claim: with the default
`lr = None`, the registered `A_imag` is *not* a fixed buffer — it is a
trainable parameter, contradicting "fixed unless explicitly configured
otherwise". -/
theorem C5_counterexample :
    (STABLESSMKernel.register (none : Option ℝ) (A_imagInit 1)).isBuffer = false := by
  unfold STABLESSMKernel.register
  rw [if_neg (by simp)]
  rfl

/-- C6 (amended): constructing the layer with an odd state dimension `N`
does not fail — the source performs no parity check; the kernel silently
materializes `N / 2` (floor) complex modes.  Stated for every `N` (odd
included) with a valid parameterization and zero dropout. -/
theorem C6_odd_state_dimension_accepted (d_model N : ℕ) :
    STABLESSM.initCheck d_model N 0 ("exp") = .ok .identity
      ∧ STABLESSMKernel.numModes N = N / 2 :=
  ⟨initCheck_nonpos_dropout d_model N 0 le_rfl, rfl⟩

/-- C6 counterexample to the original claim: construction with the odd state
dimension `N = 3` succeeds (no error of any kind is raised). -/
theorem C6_counterexample :
    STABLESSM.initCheck 4 3 0 ("exp") = .ok .identity
      ∧ STABLESSMKernel.numModes 3 = 1 :=
  ⟨initCheck_nonpos_dropout 4 3 0 le_rfl, rfl⟩

/-- C7 (amended): `DropoutNd` construction succeeds exactly for
`0 ≤ p < 1`, so `p = 1.0` and negative `p` are rejected there; but
`STABLESSM` construction guards the dropout module behind `dropout > 0.0`,
so it fails exactly for `dropout ≥ 1`: a *negative* dropout probability is
silently accepted (dropout replaced by the identity), not an error. -/
theorem C7_dropout_validation (q : ℝ) :
    (DropoutNd.initCheck q = .ok () ↔ 0 ≤ q ∧ q < 1)
      ∧ ((∃ e, STABLESSM.initCheck 1 64 q ("exp") = .error e) ↔ 1 ≤ q) := by
  constructor
  · unfold DropoutNd.initCheck
    by_cases hq : q < 0 ∨ 1 ≤ q
    · rw [if_pos hq]
      constructor
      · intro h; exact Except.noConfusion h
      · intro ⟨h1, h2⟩; rcases hq with h | h <;> linarith
    · rw [if_neg hq]
      refine ⟨fun _ => ?_, fun _ => rfl⟩
      push_neg at hq
      exact hq
  · unfold STABLESSM.initCheck
    rw [kernelInitCheck_known ("exp") 64 rfl]
    show ((∃ e, (if q > 0 then _ else _) = Except.error e) ↔ _)
    by_cases hq : q > 0
    · rw [if_pos hq]
      unfold DropoutNd.initCheck
      by_cases hq1 : q < 0 ∨ 1 ≤ q
      · rw [if_pos hq1]
        simp only [Except.map]
        exact ⟨fun _ => by rcases hq1 with h | h <;> linarith,
          fun _ => ⟨.valueError ("dropout probability has to be in [0, 1)"), rfl⟩⟩
      · rw [if_neg hq1]
        push_neg at hq1
        simp only [Except.map]
        exact ⟨fun ⟨e, he⟩ => Except.noConfusion he, fun h => absurd h (not_le.mpr hq1.2)⟩
    · rw [if_neg hq]
      exact ⟨fun ⟨e, he⟩ => Except.noConfusion he, fun h => absurd h (by linarith)⟩

/-- C7 counterexample to the original claim: constructing the layer with the
negative dropout probability `-1` succeeds — no configuration error is
raised at construction time. -/
theorem C7_counterexample :
    STABLESSM.initCheck 1 64 (-1) ("exp") = .ok .identity :=
  initCheck_nonpos_dropout 1 64 (-1) (by norm_num)

/-- C9: under the `exp`, `softplus` and `best` parameterizations the divisor
`A[h,n]` of the coupling scaling `C·(exp(dtA)−1)/A` is nonzero for every raw
decay and frequency value (its real part is strictly negative); under
`direct`, with `raw_A[h,0] = 0` and the initial `A_imag[h,0] = π·0`, the
divisor of mode `n = 0` is exactly `0`, and the division in
`STABLESSMKernel.kernelValue` is unguarded. -/
theorem C9_division_safety :
    (∀ raw imag : ℝ,
        A_exp raw imag ≠ 0 ∧ A_softplus raw imag ≠ 0 ∧ A_best raw imag ≠ 0)
      ∧ A_direct 0 (A_imagInit 0) = 0 := by
  constructor
  · intro raw imag
    refine ⟨fun h => ?_, fun h => ?_, fun h => ?_⟩
    · exact absurd (congrArg Complex.re h) (by simp [A_exp_re_neg raw imag |>.ne])
    · exact absurd (congrArg Complex.re h) (by simp [A_softplus_re_neg raw imag |>.ne])
    · exact absurd (congrArg Complex.re h) (by simp [A_best_re_neg raw imag |>.ne])
  · unfold A_direct A_imagInit
    push_cast
    ring

/-- C10: for every input and every choice of the external primitives, the
forward pass of the sequence block returns a pair whose second component is
`None` (the dummy state); the output tensor is the first component. -/
theorem C10_forward_second_none {B H M L : ℕ} (param : String)
    (p : KernelParams H M) (D : Fin H → ℝ) (activation : ℝ → ℝ)
    (dropoutFn outputLinear :
      (Fin B → Fin H → Fin L → ℝ) → (Fin B → Fin H → Fin L → ℝ))
    (u : Fin B → Fin H → Fin L → ℝ) :
    (STABLESSM.forward param p D activation dropoutFn outputLinear u).2 = none :=
  rfl

/-! ## DFT lemmas for the convolution theorem -/

theorem zeta_ne_zero (n : ℕ) : zeta n ≠ 0 := Complex.exp_ne_zero _

theorem zeta_isPrimitiveRoot (n : ℕ) (hn : n ≠ 0) : IsPrimitiveRoot (zeta n) n :=
  Complex.isPrimitiveRoot_exp n hn

/-- Geometric sum of the powers `ζⁿᵉᵏ` over one period: `n` when `n ∣ e`,
`0` otherwise. -/
theorem sum_zeta_zpow (n : ℕ) (hn : n ≠ 0) (e : ℤ) :
    ∑ k : Fin n, zeta n ^ (e * (k : ℤ)) = if (n : ℤ) ∣ e then (n : ℂ) else 0 := by
  have hprim := zeta_isPrimitiveRoot n hn
  have hstep : ∀ k : Fin n, zeta n ^ (e * (k : ℤ)) = (zeta n ^ e) ^ (k : ℕ) := by
    intro k
    rw [zpow_mul, zpow_natCast]
  rw [Finset.sum_congr rfl fun k _ => hstep k,
    Fin.sum_univ_eq_sum_range (fun k => (zeta n ^ e) ^ k) n]
  by_cases hd : (n : ℤ) ∣ e
  · rw [if_pos hd]
    have h1 : zeta n ^ e = 1 := (hprim.zpow_eq_one_iff_dvd e).mpr hd
    simp [h1]
  · rw [if_neg hd]
    have h1 : zeta n ^ e ≠ 1 := fun h => hd ((hprim.zpow_eq_one_iff_dvd e).mp h)
    rw [geom_sum_eq h1]
    have h2 : (zeta n ^ e) ^ n = 1 := by
      rw [← zpow_natCast (zeta n ^ e) n, ← zpow_mul, mul_comm, zpow_mul, zpow_natCast,
        hprim.pow_eq_one, one_zpow]
    rw [h2, sub_self, zero_div]

/-- For indices `j, m, l < n`, the root-of-unity exponent `l − j − m` is a
multiple of `n` exactly when `(j + m) mod n = l`. -/
theorem dvd_sub_iff_mod_eq (n j m l : ℕ) (hj : j < n) (hm : m < n) (hl : l < n) :
    (n : ℤ) ∣ ((l : ℤ) - (j : ℤ) - (m : ℤ)) ↔ (j + m) % n = l := by
  by_cases hs : j + m < n
  · rw [Nat.mod_eq_of_lt hs]
    constructor
    · intro hd
      have h0 : (l : ℤ) - (j : ℤ) - (m : ℤ) = 0 :=
        Int.eq_zero_of_dvd_of_natAbs_lt_natAbs hd (by omega)
      omega
    · intro he
      have h0 : (l : ℤ) - (j : ℤ) - (m : ℤ) = 0 := by omega
      rw [h0]
      exact dvd_zero _
  · push_neg at hs
    have hmod : (j + m) % n = j + m - n := by
      rw [Nat.mod_eq_sub_mod hs, Nat.mod_eq_of_lt (by omega)]
    rw [hmod]
    constructor
    · intro hd
      have hd2 : (n : ℤ) ∣ ((l : ℤ) - (j : ℤ) - (m : ℤ) + n) := dvd_add hd dvd_rfl
      have h0 : (l : ℤ) - (j : ℤ) - (m : ℤ) + n = 0 :=
        Int.eq_zero_of_dvd_of_natAbs_lt_natAbs hd2 (by omega)
      omega
    · intro he
      have h0 : (l : ℤ) - (j : ℤ) - (m : ℤ) = -(n : ℤ) := by omega
      rw [h0]
      exact dvd_neg.mpr dvd_rfl

/-- The circular convolution theorem for the modelled DFT: the inverse
transform of the pointwise product of two transforms is the cyclic
convolution. -/
theorem idft_dft_mul (n : ℕ) (u v : Fin n → ℂ) (l : Fin n) :
    idft n (fun k => dft n u k * dft n v k) l =
      ∑ j : Fin n, ∑ m : Fin n,
        if ((j : ℕ) + (m : ℕ)) % n = (l : ℕ) then u j * v m else 0 := by
  have hn : n ≠ 0 := by rintro rfl; exact absurd l.2 (Nat.not_lt_zero _)
  have hz : zeta n ≠ 0 := zeta_ne_zero n
  have hnC : (n : ℂ) ≠ 0 := Nat.cast_ne_zero.mpr hn
  unfold idft dft
  have hterm : ∀ k : Fin n,
      (∑ j, u j * zeta n ^ (-((j : ℤ) * (k : ℤ)))) *
          (∑ m, v m * zeta n ^ (-((m : ℤ) * (k : ℤ)))) *
          zeta n ^ ((l : ℤ) * (k : ℤ))
        = ∑ j, ∑ m, u j * v m *
            zeta n ^ (((l : ℤ) - (j : ℤ) - (m : ℤ)) * (k : ℤ)) := by
    intro k
    rw [Finset.sum_mul_sum, Finset.sum_mul]
    refine Finset.sum_congr rfl fun j _ => ?_
    rw [Finset.sum_mul]
    refine Finset.sum_congr rfl fun m _ => ?_
    have hmerge : zeta n ^ (-((j : ℤ) * (k : ℤ))) * (zeta n ^ (-((m : ℤ) * (k : ℤ))) *
        zeta n ^ ((l : ℤ) * (k : ℤ)))
        = zeta n ^ (((l : ℤ) - (j : ℤ) - (m : ℤ)) * (k : ℤ)) := by
      rw [← zpow_add₀ hz, ← zpow_add₀ hz]
      congr 1
      ring
    calc u j * zeta n ^ (-((j : ℤ) * (k : ℤ))) * (v m * zeta n ^ (-((m : ℤ) * (k : ℤ)))) *
          zeta n ^ ((l : ℤ) * (k : ℤ))
        = u j * v m * (zeta n ^ (-((j : ℤ) * (k : ℤ))) * (zeta n ^ (-((m : ℤ) * (k : ℤ))) *
            zeta n ^ ((l : ℤ) * (k : ℤ)))) := by ring
      _ = u j * v m * zeta n ^ (((l : ℤ) - (j : ℤ) - (m : ℤ)) * (k : ℤ)) := by rw [hmerge]
  rw [Finset.sum_congr rfl fun k _ => hterm k]
  rw [show (∑ k : Fin n, ∑ j : Fin n, ∑ m : Fin n, u j * v m *
      zeta n ^ (((l : ℤ) - (j : ℤ) - (m : ℤ)) * (k : ℤ)))
      = ∑ j : Fin n, ∑ m : Fin n, ∑ k : Fin n, u j * v m *
        zeta n ^ (((l : ℤ) - (j : ℤ) - (m : ℤ)) * (k : ℤ)) by
    rw [Finset.sum_comm]
    exact Finset.sum_congr rfl fun j _ => Finset.sum_comm]
  rw [Finset.mul_sum]
  refine Finset.sum_congr rfl fun j _ => ?_
  rw [Finset.mul_sum]
  refine Finset.sum_congr rfl fun m _ => ?_
  rw [← Finset.mul_sum, sum_zeta_zpow n hn]
  by_cases hc : ((j : ℕ) + (m : ℕ)) % n = (l : ℕ)
  · rw [if_pos ((dvd_sub_iff_mod_eq n j m l j.2 m.2 l.2).mpr hc), if_pos hc,
      ← mul_assoc, mul_comm ((n : ℂ)⁻¹), mul_assoc, inv_mul_cancel₀ hnC, mul_one]
  · rw [if_neg (fun hd => hc ((dvd_sub_iff_mod_eq n j m l j.2 m.2 l.2).mp hd)), if_neg hc,
      mul_zero, mul_zero]

/-- For zero-padded length-`L` signals and a retained index `lv < L`, the
cyclic convolution over length `2L` has no wraparound and collapses to the
causal sum `Σ_{j≤lv} u j · k (lv−j)`. -/
theorem circular_to_causal (L : ℕ) (u k : ℕ → ℂ) (lv : ℕ) (hl : lv < L) :
    (∑ j : Fin (2 * L), ∑ m : Fin (2 * L),
        if ((j : ℕ) + (m : ℕ)) % (2 * L) = lv
        then padTo2L L u j * padTo2L L k m else 0)
      = ∑ j ∈ Finset.range (lv + 1), u j * k (lv - j) := by
  simp only [padTo2L]
  rw [Fin.sum_univ_eq_sum_range (fun jn => ∑ m : Fin (2 * L),
    if (jn + (m : ℕ)) % (2 * L) = lv
    then (if jn < L then u jn else 0) * (if (m : ℕ) < L then k (m : ℕ) else 0) else 0) (2 * L)]
  have hinner : ∀ jn ∈ Finset.range (2 * L),
      (∑ m : Fin (2 * L), if (jn + (m : ℕ)) % (2 * L) = lv
        then (if jn < L then u jn else 0) * (if (m : ℕ) < L then k (m : ℕ) else 0) else 0)
      = if jn ≤ lv then u jn * k (lv - jn) else 0 := by
    intro jn hjn
    rw [Finset.mem_range] at hjn
    by_cases hjl : jn ≤ lv
    · rw [if_pos hjl]
      have hjL : jn < L := by omega
      rw [Finset.sum_eq_single (⟨lv - jn, by omega⟩ : Fin (2 * L))]
      · have hcond : (jn + ((⟨lv - jn, by omega⟩ : Fin (2 * L)) : ℕ)) % (2 * L) = lv := by
          have h1 : jn + ((⟨lv - jn, by omega⟩ : Fin (2 * L)) : ℕ) = lv := by
            simp only [Fin.val_mk]; omega
          rw [h1]
          exact Nat.mod_eq_of_lt (by omega)
        rw [if_pos hcond, if_pos hjL, if_pos (by simp only [Fin.val_mk]; omega)]
      · intro m _ hne
        by_cases hmL : (m : ℕ) < L
        · refine if_neg fun hP => hne ?_
          rw [Nat.mod_eq_of_lt (by omega)] at hP
          exact Fin.ext (by simp only [Fin.val_mk]; omega)
        · rw [if_neg hmL, mul_zero, ite_self]
      · intro habs
        exact absurd (Finset.mem_univ _) habs
    · rw [if_neg hjl]
      refine Finset.sum_eq_zero fun m _ => ?_
      by_cases hmL : (m : ℕ) < L
      · by_cases hjL : jn < L
        · refine if_neg fun hP => ?_
          rw [Nat.mod_eq_of_lt (by omega)] at hP
          omega
        · rw [if_neg hjL, zero_mul, ite_self]
      · rw [if_neg hmL, mul_zero, ite_self]
  rw [Finset.sum_congr rfl hinner,
    ← Finset.sum_subset (Finset.range_subset.mpr (by omega : lv + 1 ≤ 2 * L))
      (fun x hx hnx => if_neg (by rw [Finset.mem_range] at hnx; omega))]
  exact Finset.sum_congr rfl fun j hj =>
    if_pos (by rw [Finset.mem_range] at hj; omega)

/-- The frequency-domain convolution of length-`L` signals, zero-padded to
`2L`, equals the causal time-domain convolution on the retained indices. -/
theorem freqConv_eq_causal (L : ℕ) (u k : ℕ → ℂ) (l : Fin L) :
    freqConv L u k l = ∑ j ∈ Finset.range ((l : ℕ) + 1), u j * k ((l : ℕ) - j) := by
  unfold freqConv
  rw [idft_dft_mul]
  exact circular_to_causal L u k (l : ℕ) l.2

/-- C3: the frequency-domain convolver of `STABLESSM.forward` (zero-pad to
`2L`, forward transform, elementwise multiply broadcast over batch, inverse
transform, keep the first `L` samples) equals the causal time-domain
convolution `Y[b,h,l] = Σ_{j=0}^{l} U[b,h,j]·K[h,l−j]`, for every real input
tensor of shape (B, H, L) and kernel of shape (H, L). -/
theorem C3_freq_conv_eq_causal_conv (B H L : ℕ) (U : Fin B → Fin H → ℕ → ℝ)
    (K : Fin H → ℕ → ℝ) (b : Fin B) (h : Fin H) (l : Fin L) :
    STABLESSM.freqConvOutput B H L U K b h l
      = ∑ j ∈ Finset.range ((l : ℕ) + 1), U b h j * K h ((l : ℕ) - j) := by
  unfold STABLESSM.freqConvOutput
  rw [freqConv_eq_causal]
  have hsum : (∑ j ∈ Finset.range ((l : ℕ) + 1), ((U b h j : ℂ) * (K h ((l : ℕ) - j) : ℂ)))
      = ((∑ j ∈ Finset.range ((l : ℕ) + 1), U b h j * K h ((l : ℕ) - j) : ℝ) : ℂ) := by
    push_cast
    rfl
  rw [hsum, Complex.ofReal_re]

/-- C8: each layer of the residual stack computes `X_out = Block(Z) + X_in`,
where the per-layer transform is the STABLESSM block followed by the
stack-level dropout (identity at inference): under pre-norm,
`Z = Norm(X_in)` and no post-normalization is applied; under post-norm,
`Z = X_in` and the normalization is applied to `X_out` instead — exactly one
of the two, selected by the single `prenorm` flag.  After all layers the
output is either the full sequence or, in pooling mode, the average over the
length axis, of shape (B, d). -/
theorem C8_residual_stack {B d L : ℕ} (layer : StackLayer B d L)
    (x : Fin B → Fin d → Fin L → ℝ) (prenorm : Bool)
    (layers : List (StackLayer B d L)) (x₀ : Fin B → Fin L → Fin d → ℝ) :
    (stackStep true layer x
        = fun b c l =>
            layer.dropout
                (layer.block (transposeToBdL (layer.norm (transposeToBLd x)))) b c l
              + x b c l)
      ∧ (stackStep false layer x
          = transposeToBdL (layer.norm (transposeToBLd
              fun b c l => layer.dropout (layer.block x) b c l + x b c l)))
      ∧ (StableSSMModel.forward prenorm false layers x₀
          = .pooled fun b c =>
              (∑ l, transposeToBLd
                  (layers.foldl (fun acc lay => stackStep prenorm lay acc)
                    (transposeToBdL x₀)) b l c) / L)
      ∧ (StableSSMModel.forward prenorm true layers x₀
          = .seq (transposeToBLd
              (layers.foldl (fun acc lay => stackStep prenorm lay acc)
                (transposeToBdL x₀)))) :=
  ⟨rfl, rfl, rfl, rfl⟩

end StableSSM
